import Mathlib

/-!
Verification of the ME507 real-time task framework core against its
natural-language specification.  The definitions below are shallow embeddings
of the C++ sources: unsigned machine integers become Nat with explicit
reduction modulo 2^16 or 2^32 where the C arithmetic wraps, volatile hardware
registers become explicit input streams, and the intrusive linked lists become
index-based registries.  Each claim of the specification is stated and settled
as a theorem about these definitions.
-/

namespace ME507

/-! ## Machine integer helpers -/

/-- Modulus of a 16-bit unsigned value. -/
def U16 : Nat := 65536

/-- Modulus of a 32-bit unsigned value. -/
def U32 : Nat := 4294967296

/-- Reduce to a 16-bit unsigned value. -/
def u16 (n : Nat) : Nat := n % U16

/-- Reduce to a 32-bit unsigned value. -/
def u32 (n : Nat) : Nat := n % U32

/-- Wrapping 16-bit subtraction, for operands already below 2^16. -/
def usub16 (a b : Nat) : Nat := (a + U16 - b) % U16

/-- Wrapping 32-bit subtraction, for operands already below 2^32. -/
def usub32 (a b : Nat) : Nat := (a + U32 - b) % U32

/-- Maximal FreeRTOS tick delay, the value of the 32-bit all-ones constant
used as an effectively unbounded wait. -/
def portMAX_DELAY : Nat := 4294967295

/-! ## Time stamp (time_stamp.h, time_stamp_minus.cpp, time_stamp_plus.cpp)

A time stamp pairs the FreeRTOS tick counter (TickType_t, 32 bits in this
configuration) with a sample of the free-running hardware timer (uint16_t).
TMR_MAX_CT, the number of hardware ticks per RTOS tick, is computed from the
CPU clock in the sources and is kept as a parameter maxCt here. -/

/-- A time stamp: the RTOS tick count (32-bit) and the hardware timer count
(16-bit) at the moment of capture. -/
structure time_stamp where
  tick_count : Nat
  hardware_count : Nat
deriving DecidableEq, Repr

/-- Embedding of time_stamp::operator- from time_stamp_minus.cpp.  The first
component of the result is the state of the left operand after the call
(the source decrements this->tick_count, not ret_stamp.tick_count, when a
borrow is detected); the second component is the returned ret_stamp. -/
def time_stamp.sub (maxCt : Nat) (self previous : time_stamp) :
    time_stamp × time_stamp :=
  let retTick := usub32 self.tick_count previous.tick_count
  let retHw := usub16 self.hardware_count previous.hardware_count
  if maxCt ≤ retHw then
    ({ self with tick_count := usub32 self.tick_count 1 },
     { tick_count := retTick, hardware_count := u16 (retHw + maxCt) })
  else
    (self, { tick_count := retTick, hardware_count := retHw })

/-- Embedding of time_stamp::operator+ from time_stamp_plus.cpp: fieldwise
wrapping addition, then a carry from the hardware count into the tick count
when the hardware sum reaches TMR_MAX_CT. -/
def time_stamp.add (maxCt : Nat) (self addend : time_stamp) : time_stamp :=
  let hw := u16 (self.hardware_count + addend.hardware_count)
  let tick := u32 (self.tick_count + addend.tick_count)
  if maxCt ≤ hw then
    { tick_count := u32 (tick + 1), hardware_count := hw - maxCt }
  else
    { tick_count := tick, hardware_count := hw }

/-! ## Data Share (taskshare.h)

A TaskShare holds one value; put and get copy it inside a critical section.
The increment and decrement operators are embedded as functions from the
share state to the pair (share state after the call, value returned). -/

/-- A single-slot shared data item holding one value of the element type. -/
structure TaskShare (T : Type) where
  the_data : T

/-- TaskShare::put, the critical-section-protected overwrite of the slot. -/
def TaskShare.put {T : Type} (s : TaskShare T) (new_data : T) : TaskShare T :=
  { the_data := new_data }

/-- TaskShare::get, the critical-section-protected copy-out of the slot. -/
def TaskShare.get {T : Type} (s : TaskShare T) : T :=
  s.the_data

/-- The two-argument-free increment operator of TaskShare (the one without
the int dummy parameter): increments the_data and returns a reference to it,
so the caller observes the value after the increment. -/
def TaskShare.incPre (s : TaskShare Int) : TaskShare Int × Int :=
  let s2 : TaskShare Int := { the_data := s.the_data + 1 }
  (s2, s2.the_data)

/-- The increment operator of TaskShare taking the int dummy parameter: it
copies the_data into result, increments the_data, and returns result, so the
caller observes the value before the increment. -/
def TaskShare.incPost (s : TaskShare Int) : TaskShare Int × Int :=
  let result := s.the_data
  let s2 : TaskShare Int := { the_data := s.the_data + 1 }
  (s2, result)

/-- The decrement operator of TaskShare without the int dummy parameter:
decrements the_data and returns a reference to it. -/
def TaskShare.decPre (s : TaskShare Int) : TaskShare Int × Int :=
  let s2 : TaskShare Int := { the_data := s.the_data - 1 }
  (s2, s2.the_data)

/-- The decrement operator of TaskShare taking the int dummy parameter: it
copies the_data into result, decrements the_data, and returns result. -/
def TaskShare.decPost (s : TaskShare Int) : TaskShare Int × Int :=
  let result := s.the_data
  let s2 : TaskShare Int := { the_data := s.the_data - 1 }
  (s2, result)

/-! ## Claims about the time stamp and the data share -/

/-- Claim C1: evaluation of the code at a concrete failing input.  With
TMR_MAX_CT = 2000, t1 = (5, 1) and t2 = (2, 3) (both valid, t1 greater than
t2), the subtraction takes the borrow branch but decrements the tick count of
t1 itself instead of the tick count of the returned difference, so the
difference is (3, 1998), adding it back to t2 gives (6, 1) instead of t1 =
(5, 1), and t1 is left mutated to (4, 1).  The round-trip half of the claim
therefore fails on the code. -/
theorem C1_sub_borrow_divergence :
    time_stamp.sub 2000 { tick_count := 5, hardware_count := 1 }
        { tick_count := 2, hardware_count := 3 } =
      ({ tick_count := 4, hardware_count := 1 },
       { tick_count := 3, hardware_count := 1998 }) ∧
    time_stamp.add 2000 { tick_count := 2, hardware_count := 3 }
        { tick_count := 3, hardware_count := 1998 } =
      { tick_count := 6, hardware_count := 1 } ∧
    ({ tick_count := 6, hardware_count := 1 } : time_stamp) ≠
      { tick_count := 5, hardware_count := 1 } := by
  refine ⟨?_, ?_, ?_⟩ <;> decide

/-- Claim C3, counterexample: the claim says the operator with the int dummy
parameter (postfix) on a share holding 5 returns the post-operation value 6;
the code returns the prior value 5. -/
theorem C3_post_op_counterexample :
    (TaskShare.incPost { the_data := 5 }).2 ≠ 6 := by
  decide

/-- Claim C3 as amended: for a share holding n, all four operators leave the
share holding the incremented or decremented value, the operators without the
int dummy parameter (prefix) return the post-operation value, and the
operators with the int dummy parameter (postfix) return the pre-operation
value. -/
theorem C3_inc_dec_semantics (n : Int) :
    TaskShare.incPre { the_data := n } = ({ the_data := n + 1 }, n + 1) ∧
    TaskShare.incPost { the_data := n } = ({ the_data := n + 1 }, n) ∧
    TaskShare.decPre { the_data := n } = ({ the_data := n - 1 }, n - 1) ∧
    TaskShare.decPost { the_data := n } = ({ the_data := n - 1 }, n) := by
  refine ⟨rfl, rfl, rfl, rfl⟩

/-- Claim C5: two successive puts followed by a get on a Data Share return
the second value; the first write is overwritten (latest-value semantics in
the single-writer, sequential case). -/
theorem C5_latest_value {T : Type} (s : TaskShare T) (v1 v2 : T) :
    ((s.put v1).put v2).get = v2 := by
  rfl

/-! ## Item Queue (taskqueue.h)

A TaskQueue wraps a FreeRTOS queue of bounded capacity.  The wait bound
given to the constructor is stored in ticks_to_wait and passed to the kernel
send primitives by put and butt_in.  The model below is the sequential,
single-task semantics: with no other task running, a send to a full queue
cannot be unblocked, so it fails after its wait bound regardless of that
bound, and a receive from a non-empty queue returns immediately. -/

/-- An item queue: the queued items in front-to-back order, the capacity
handed to xQueueCreate, and the stored constructor wait bound. -/
structure TaskQueue (T : Type) where
  items : List T
  buf_size : Nat
  ticks_to_wait : Nat

/-- The TaskQueue constructor: an empty kernel queue of the given capacity,
with the wait bound stored for later sends. -/
def TaskQueue.make (T : Type) (queue_size wait_time : Nat) : TaskQueue T :=
  { items := [], buf_size := queue_size, ticks_to_wait := wait_time }

/-- xQueueSendToBack in the single-task semantics: append when a slot is
free; when the queue is full no consumer can free a slot, so the call times
out after the given wait bound and reports failure. -/
def xQueueSendToBack {T : Type} (q : TaskQueue T) (item : T) (wait : Nat) :
    TaskQueue T × Bool :=
  if q.items.length < q.buf_size then
    ({ q with items := q.items ++ [item] }, true)
  else
    (q, false)

/-- TaskQueue::put forwards to xQueueSendToBack with the stored wait bound. -/
def TaskQueue.put {T : Type} (q : TaskQueue T) (item : T) :
    TaskQueue T × Bool :=
  xQueueSendToBack q item q.ticks_to_wait

/-- xQueueReceive in the single-task semantics: return the head immediately
when an item is present; when the queue is empty no producer can add one, so
the call times out and reports failure by leaving the output unset. -/
def xQueueReceive {T : Type} (q : TaskQueue T) (wait : Nat) :
    TaskQueue T × Option T :=
  match q.items with
  | [] => (q, none)
  | x :: rest => ({ q with items := rest }, some x)

/-- TaskQueue::get calls xQueueReceive with portMAX_DELAY (not with the
stored ticks_to_wait) and returns the received item, or the
default-constructed value when nothing was received. -/
def TaskQueue.get {T : Type} [Inhabited T] (q : TaskQueue T) :
    TaskQueue T × T :=
  let r := xQueueReceive q portMAX_DELAY
  (r.1, r.2.getD default)

/-- TaskQueue::num_items_in, the number of items waiting in the queue. -/
def TaskQueue.num_items_in {T : Type} (q : TaskQueue T) : Nat :=
  q.items.length

/-- Fold TaskQueue::put over a list of items, reporting whether every put
succeeded. -/
def putAll {T : Type} (q : TaskQueue T) : List T → TaskQueue T × Bool
  | [] => (q, true)
  | x :: xs =>
    let r := TaskQueue.put q x
    let rest := putAll r.1 xs
    (rest.1, r.2 && rest.2)

/-- Repeat TaskQueue::get the given number of times, collecting the returned
items in call order. -/
def getAll {T : Type} [Inhabited T] (q : TaskQueue T) :
    Nat → TaskQueue T × List T
  | 0 => (q, [])
  | n + 1 =>
    let r := TaskQueue.get q
    let rest := getAll r.1 n
    (rest.1, r.2 :: rest.2)

/-! ## Blocking receive on an empty queue, for the timeout claim

For an empty queue the observable of xQueueReceive is which wait bound it was
handed: if the next item arrives some number of ticks after the call, the item is
received exactly when the arrival is within the wait bound.  The code-side
and claim-side versions of get below differ only in the bound they pass. -/

/-- xQueueReceive called on an empty queue whose next item, of value v,
arrives after the given number of ticks: the item is received iff it arrives
within the wait bound, else the call times out. -/
def xQueueReceiveEmpty {T : Type} (arrival : Nat) (v : T) (wait : Nat) :
    Option T :=
  if arrival ≤ wait then some v else none

/-- get() as coded on an empty queue: the wait bound passed to the kernel is
portMAX_DELAY, and a timed-out receive yields the default-constructed
value. -/
def TaskQueue.getEmptyCode {T : Type} [Inhabited T] (q : TaskQueue T)
    (arrival : Nat) (v : T) : T :=
  (xQueueReceiveEmpty arrival v portMAX_DELAY).getD default

/-- Modelled from the claim wording: get() on an empty queue waits the
constructor wait bound stored in ticks_to_wait, and on timeout returns the
default-constructed value.  This follows the claim (and the doc comment of
TaskQueue::get), not the code, and exists to exhibit the divergence. -/
def TaskQueue.getEmptySpec {T : Type} [Inhabited T] (q : TaskQueue T)
    (arrival : Nat) (v : T) : T :=
  (xQueueReceiveEmpty arrival v q.ticks_to_wait).getD default

/-- Claim C2: evaluation of the code at a concrete failing input.  For a
queue constructed with wait bound 0, a get() during which the next item (of
value 42) arrives after 5 ticks returns 42, because the code passes
portMAX_DELAY to xQueueReceive; the claim (and the doc comment of the method itself)
says the call times out after the configured bound 0 and returns the
default-constructed value 0. -/
theorem C2_get_ignores_wait_bound :
    TaskQueue.getEmptyCode (TaskQueue.make Nat 3 0) 5 42 = 42 ∧
    TaskQueue.getEmptySpec (TaskQueue.make Nat 3 0) 5 42 = 0 ∧
    (42 : Nat) ≠ 0 ∧
    TaskQueue.getEmptyCode (TaskQueue.make Nat 3 0) (portMAX_DELAY + 1) 42
      = 0 := by
  refine ⟨rfl, rfl, by decide, rfl⟩

/-- Helper for the FIFO claim: putting xs into a queue that already holds l
appends them in order and succeeds throughout, provided everything fits. -/
theorem putAll_ok {T : Type} (xs : List T) (l : List T) (cap w : Nat)
    (h : l.length + xs.length ≤ cap) :
    putAll { items := l, buf_size := cap, ticks_to_wait := w } xs =
      ({ items := l ++ xs, buf_size := cap, ticks_to_wait := w }, true) := by
  induction xs generalizing l with
  | nil => simp [putAll]
  | cons x xs ih =>
    have hlt : l.length < cap := by
      have := h
      simp at this
      omega
    have step :
        TaskQueue.put { items := l, buf_size := cap, ticks_to_wait := w } x =
          ({ items := l ++ [x], buf_size := cap, ticks_to_wait := w },
           true) := by
      simp [TaskQueue.put, xQueueSendToBack, hlt]
    have hrest : (l ++ [x]).length + xs.length ≤ cap := by
      simp at h ⊢
      omega
    simp [putAll, step, ih (l ++ [x]) hrest]

/-- Helper for the FIFO claim: getting as many items as a queue holds
returns them in order and empties the queue. -/
theorem getAll_ok {T : Type} [Inhabited T] (xs : List T) (cap w : Nat) :
    getAll { items := xs, buf_size := cap, ticks_to_wait := w } xs.length =
      ({ items := [], buf_size := cap, ticks_to_wait := w }, xs) := by
  induction xs with
  | nil => simp [getAll]
  | cons x xs ih =>
    simp [getAll, TaskQueue.get, xQueueReceive, ih]

/-- Claim C6: FIFO order.  First part: on a fresh Item Queue whose capacity
admits the whole sequence, every put succeeds, and as many gets return the
items in put order, leaving the queue empty.  Second part: the concrete
capacity-3, zero-wait-bound scenario, with put(40) failing on the full queue
while num_items_in stays 3, and the three gets yielding 10, 20, 30. -/
theorem C6_fifo_order :
    (∀ (T : Type) (_ : Inhabited T) (xs : List T) (cap w : Nat),
      xs.length ≤ cap →
        putAll (TaskQueue.make T cap w) xs =
          ({ items := xs, buf_size := cap, ticks_to_wait := w }, true) ∧
        getAll ({ items := xs, buf_size := cap, ticks_to_wait := w } :
            TaskQueue T) xs.length =
          ({ items := [], buf_size := cap, ticks_to_wait := w }, xs)) ∧
    (let q0 := TaskQueue.make Nat 3 0
     let p1 := q0.put 10
     let p2 := p1.1.put 20
     let p3 := p2.1.put 30
     let p4 := p3.1.put 40
     p1.2 = true ∧ p2.2 = true ∧ p3.2 = true ∧ p4.2 = false ∧
     p4.1.num_items_in = 3 ∧
     (let g1 := p4.1.get
      let g2 := g1.1.get
      let g3 := g2.1.get
      g1.2 = 10 ∧ g2.2 = 20 ∧ g3.2 = 30 ∧ g3.1.num_items_in = 0)) := by
  constructor
  · intro T _ xs cap w h
    refine ⟨?_, getAll_ok xs cap w⟩
    have := putAll_ok xs [] cap w (by simpa using h)
    simpa [TaskQueue.make] using this
  · decide

/-- Witness for claim C6: the general FIFO part applied to the concrete
queue of capacity 2 holding 7 then 9. -/
theorem C6_fifo_order_witness :
    putAll (TaskQueue.make Nat 2 0) [7, 9] =
      ({ items := [7, 9], buf_size := 2, ticks_to_wait := 0 }, true) ∧
    getAll ({ items := [7, 9], buf_size := 2, ticks_to_wait := 0 } :
        TaskQueue Nat) 2 =
      ({ items := [], buf_size := 2, ticks_to_wait := 0 }, [7, 9]) := by
  have h := C6_fifo_order.1 Nat inferInstance [7, 9] 2 0 (by decide)
  exact ⟨h.1, h.2⟩

/-! ## Share registry (baseshare.h, baseshare.cpp)

Every BaseShare constructor links the new share in at the head of a
process-wide singly-linked list: p_next is set to the current p_newest and
p_newest is set to the new share.  The model keeps the created nodes in an
array in creation order, each node carrying its name and its p_next link as
an index into the array, with p_newest an optional index. -/

/-- The share registry: the constructed nodes in creation order, each with
its name and its p_next link, and the static head pointer p_newest. -/
structure Registry where
  nodes : List (String × Option Nat)
  p_newest : Option Nat

/-- The registry before any share is constructed: no nodes, p_newest null. -/
def Registry.empty : Registry :=
  { nodes := [], p_newest := none }

/-- The registry effect of the BaseShare constructor: p_next of the new node
is the old p_newest, and p_newest becomes the new node. -/
def Registry.construct (r : Registry) (nm : String) : Registry :=
  { nodes := r.nodes ++ [(nm, r.p_newest)],
    p_newest := some r.nodes.length }

/-- Construct a sequence of shares in the given order. -/
def constructAll (r : Registry) (names : List String) : Registry :=
  names.foldl Registry.construct r

/-- Walk the registry chain from the given link, collecting each visited
name of each share, as print_in_list does (print own line, recurse on p_next until
null).  The fuel bounds the walk; it is ample whenever the chain is
acyclic. -/
def walkFrom (r : Registry) : Option Nat → Nat → List String
  | none, _ => []
  | some _, 0 => []
  | some i, fuel + 1 =>
    match r.nodes[i]? with
    | none => []
    | some (nm, nxt) => nm :: walkFrom r nxt fuel

/-- print_all_shares: one status line per share, starting from p_newest and
following the chain. -/
def print_all_shares (r : Registry) : List String :=
  walkFrom r r.p_newest r.nodes.length

/-- Registry invariant after constructing the given names in order from the
empty registry: node i holds the i-th name and links to node i-1 (none for
node 0), and p_newest is the last node. -/
def RegInv (r : Registry) (names : List String) : Prop :=
  r.nodes.length = names.length ∧
  r.p_newest = (match names.length with
    | 0 => none
    | n + 1 => some n) ∧
  ∀ i, i < names.length →
    r.nodes[i]? = some (names.getD i "",
      match i with
      | 0 => none
      | j + 1 => some j)

/-- Constructing one more share preserves the registry invariant. -/
theorem RegInv.construct {r : Registry} {names : List String}
    (h : RegInv r names) (nm : String) :
    RegInv (r.construct nm) (names ++ [nm]) := by
  obtain ⟨hlen, hnew, hnodes⟩ := h
  refine ⟨by simp [Registry.construct, hlen], ?_, ?_⟩
  · simp [Registry.construct, hlen]
  · intro i hi
    simp only [List.length_append, List.length_cons, List.length_nil] at hi
    rcases Nat.lt_or_ge i names.length with hlt | hge
    · have hstable : (r.construct nm).nodes[i]? = r.nodes[i]? := by
        simp only [Registry.construct]
        rw [List.getElem?_append_left (by omega)]
      rw [hstable, hnodes i hlt]
      have : (names ++ [nm]).getD i "" = names.getD i "" := by
        simp [List.getD, List.getElem?_append_left (by omega : i < names.length)]
      rw [this]
    · have hieq : i = names.length := by omega
      subst hieq
      simp only [Registry.construct]
      rw [List.getElem?_append_right (by omega), hlen]
      simp only [Nat.sub_self, List.getElem?_cons_zero]
      have hgd : (names ++ [nm]).getD names.length "" = nm := by
        simp [List.getD, List.getElem?_append_right (Nat.le_refl _)]
      rw [hgd, hnew]

/-- The invariant holds after constructing any list of names from the empty
registry. -/
theorem regInv_constructAll (names : List String) :
    RegInv (constructAll Registry.empty names) names := by
  induction names using List.reverseRecOn with
  | nil =>
    refine ⟨rfl, rfl, ?_⟩
    intro i hi
    simp at hi
  | append_singleton names nm ih =>
    have : constructAll Registry.empty (names ++ [nm]) =
        (constructAll Registry.empty names).construct nm := by
      simp [constructAll, List.foldl_append]
    rw [this]
    exact ih.construct nm

/-- In a registry satisfying the invariant, walking from node j with enough
fuel yields the first j+1 names in reverse creation order. -/
theorem walkFrom_inv {r : Registry} {names : List String}
    (h : RegInv r names) :
    ∀ j fuel, j < names.length → j + 1 ≤ fuel →
      walkFrom r (some j) fuel = ((names.take (j + 1)).reverse) := by
  intro j
  induction j with
  | zero =>
    intro fuel hj hfuel
    obtain ⟨fuel, rfl⟩ : ∃ f, fuel = f + 1 := ⟨fuel - 1, by omega⟩
    rw [walkFrom, (h.2.2) 0 hj]
    simp [walkFrom, List.take_one]
    cases hn : names with
    | nil => subst hn; simp at hj
    | cons a l => subst hn; simp [List.getD]
  | succ j ih =>
    intro fuel hj hfuel
    obtain ⟨fuel, rfl⟩ : ∃ f, fuel = f + 1 := ⟨fuel - 1, by omega⟩
    rw [walkFrom, (h.2.2) (j + 1) hj]
    simp only []
    rw [ih fuel (by omega) (by omega)]
    have htake : names.take (j + 2) = names.take (j + 1) ++
        [names.getD (j + 1) ""] := by
      have h1 : names.take (j + 1 + 1) =
          names.take (j + 1) ++ names[j + 1]?.toList := List.take_succ
      rw [h1]
      have : names[j + 1]? = some (names.getD (j + 1) "") := by
        simp [List.getD_eq_getElem?_getD, List.getElem?_eq_getElem hj]
      rw [this]
      simp
    rw [htake]
    simp

/-- Claim C7: after constructing shares s1 ... sk in order, walking the
registry from p_newest visits exactly sk, ..., s1 then stops at null, so
print_all_shares emits one status line per share in reverse creation
order. -/
theorem C7_registry_reverse_order (names : List String) :
    print_all_shares (constructAll Registry.empty names) = names.reverse := by
  have h := regInv_constructAll names
  unfold print_all_shares
  rw [h.2.1, h.1]
  cases hn : names.length with
  | zero =>
    simp only []
    rw [walkFrom]
    have : names = [] := List.eq_nil_of_length_eq_zero hn
    simp [this]
  | succ n =>
    simp only []
    rw [walkFrom_inv h n (n + 1) (by omega) (by omega)]
    congr 1
    rw [← hn]
    simp

/-! ## Task wrapper (taskbase.h, taskbase.cpp)

The TaskBase constructor spawns the kernel task, then unconditionally zeroes
the FSM cursor, its previous value and the run counter.  The trampoline
_call_users_run_method calls the user run() once; if run() returns, with
INCLUDE_vTaskDelete = 0 (the configuration in FreeRTOSConfig.h) it zeroes the
handle without deleting the task and then loops forever on
vTaskDelay(portMAX_DELAY). -/

/-- Value of INCLUDE_vTaskDelete in FreeRTOSConfig.h. -/
def INCLUDE_vTaskDelete : Nat := 0

/-- The TaskBase fields the claims are about: the kernel task handle, the FSM
cursor and its previous value, the run counter, the priority and the total
stack size. -/
structure TaskBaseState where
  handle : Nat
  state : Nat
  previous_state : Nat
  runs : Nat
  prio : Nat
  total_stack : Nat
deriving DecidableEq, Repr

/-- Embedding of the TaskBase constructor: xTaskCreate either succeeds and
stores a nonzero handle or fails (creation_ok false, handle left zero); in
both cases state, previous_state and runs are then set to zero. -/
def TaskBase.construct (creation_ok : Bool) (new_handle : Nat)
    (a_priority a_stack_size : Nat) : TaskBaseState :=
  { handle := if creation_ok then new_handle else 0,
    state := 0,
    previous_state := 0,
    runs := 0,
    prio := a_priority,
    total_stack := a_stack_size }

/-- Embedding of operator bool of TaskBase: the task is valid iff its handle
is nonzero. -/
def TaskBase.toBool (t : TaskBaseState) : Bool :=
  t.handle != 0

/-- A kernel call made by the parked trampoline loop. -/
inductive KernelCall where
  | vTaskDelay (ticks : Nat)
  | vTaskDelete (handle : Nat)
deriving DecidableEq, Repr

/-- Effect of _call_users_run_method on the task state when the user run()
method returns: with INCLUDE_vTaskDelete = 1 the handle is zeroed and the
kernel task deleted; otherwise the handle is zeroed and the task kept. -/
def call_users_run_method_on_return (t : TaskBaseState) :
    TaskBaseState × Bool :=
  if INCLUDE_vTaskDelete = 1 then
    ({ t with handle := 0 }, true)
  else
    ({ t with handle := 0 }, false)

/-- The kernel call performed by the n-th iteration of the unending loop the
trampoline enters after run() returns. -/
def park_loop_call (n : Nat) : KernelCall :=
  KernelCall.vTaskDelay portMAX_DELAY

/-- Claim C8: when run() returns, the trampoline zeroes the handle of the wrapper
so the boolean-validity query is false from then on, the kernel task is not
deleted in this configuration, and every iteration of the loop the task then
enters performs a maximal-duration delay. -/
theorem C8_trampoline_parks_forever (t : TaskBaseState) :
    (call_users_run_method_on_return t).1.handle = 0 ∧
    TaskBase.toBool (call_users_run_method_on_return t).1 = false ∧
    (call_users_run_method_on_return t).2 = false ∧
    ∀ n, park_loop_call n = KernelCall.vTaskDelay portMAX_DELAY := by
  refine ⟨rfl, rfl, rfl, fun n => rfl⟩

/-- Claim C10: every newly constructed task wrapper starts with FSM cursor 0,
previous state 0 and run counter 0, whatever the constructor arguments and
whether kernel task creation succeeded. -/
theorem C10_constructor_zeroes_fsm (creation_ok : Bool)
    (new_handle a_priority a_stack_size : Nat) :
    (TaskBase.construct creation_ok new_handle a_priority a_stack_size).state
        = 0 ∧
    (TaskBase.construct creation_ok new_handle a_priority
        a_stack_size).previous_state = 0 ∧
    (TaskBase.construct creation_ok new_handle a_priority a_stack_size).runs
        = 0 := by
  refine ⟨rfl, rfl, rfl⟩

/-! ## Serial send path (rs232int.cpp, base232.h)

rs232::putchar busy-waits on the UDRE (transmit buffer empty) status flag
with a uint16_t iteration counter: each loop iteration samples the flag; when
the flag is set the loop exits and the byte is written (once) to the UART
data register; when the counter exceeds UART_TX_TOUT the method returns
without writing.  Its return type is void, so the caller learns nothing.
The volatile status register is modelled as a stream of flag samples, and the
result of putchar as the list of bytes written to the data register. -/

/-- Iteration-count timeout bound from base232.h. -/
def UART_TX_TOUT : Nat := 20000

/-- The busy-wait loop of rs232::putchar, starting at the given counter
value: sample the flag; if set, write the byte; else if the counter exceeds
UART_TX_TOUT, give up; else advance.  The fuel argument only establishes
termination and is chosen so it cannot run out before the counter check. -/
def putcharFrom (flag : Nat → Bool) (chout : Nat) :
    Nat → Nat → List Nat
  | _, 0 => []
  | count, fuel + 1 =>
    if flag count then [chout]
    else if UART_TX_TOUT < count then []
    else putcharFrom flag chout (count + 1) fuel

/-- rs232::putchar: run the busy-wait loop from counter 0.  The result is the
list of bytes written to the UART data register during the call. -/
def rs232_putchar (flag : Nat → Bool) (chout : Nat) : List Nat :=
  putcharFrom flag chout 0 (UART_TX_TOUT + 2)

/-- The loop writes nothing when every flag sample from the current counter
through UART_TX_TOUT + 1 is clear. -/
theorem putcharFrom_none (flag : Nat → Bool) (chout : Nat) :
    ∀ fuel count, count + fuel = UART_TX_TOUT + 2 →
      (∀ i, count ≤ i → i ≤ UART_TX_TOUT + 1 → flag i = false) →
      putcharFrom flag chout count fuel = [] := by
  intro fuel
  induction fuel with
  | zero =>
    intro count _ _
    rw [putcharFrom]
  | succ fuel ih =>
    intro count hc hnone
    rw [putcharFrom]
    have hf : flag count = false :=
      hnone count (Nat.le_refl _) (by omega)
    rw [hf]
    simp only [Bool.false_eq_true, if_false]
    by_cases hcount : UART_TX_TOUT < count
    · rw [if_pos hcount]
    · rw [if_neg hcount, ih (count + 1) (by omega)]
      intro i h1 h2
      exact hnone i (by omega) h2

/-- The loop writes the byte exactly once when some flag sample from the
current counter through UART_TX_TOUT + 1 is set. -/
theorem putcharFrom_one (flag : Nat → Bool) (chout : Nat) :
    ∀ fuel count, count + fuel = UART_TX_TOUT + 2 →
      (∃ i, count ≤ i ∧ i ≤ UART_TX_TOUT + 1 ∧ flag i) →
      putcharFrom flag chout count fuel = [chout] := by
  intro fuel
  induction fuel with
  | zero =>
    intro count hc hex
    exfalso
    obtain ⟨i, h1, h2, _⟩ := hex
    omega
  | succ fuel ih =>
    intro count hc hex
    rw [putcharFrom]
    by_cases hf : flag count
    · rw [if_pos hf]
    · rw [if_neg hf]
      obtain ⟨i, h1, h2, h3⟩ := hex
      have hne : i ≠ count := by
        rintro rfl
        exact hf h3
      have hcount : ¬ UART_TX_TOUT < count := by omega
      rw [if_neg hcount]
      exact ih (count + 1) (by omega) ⟨i, by omega, h2, h3⟩

/-- Claim C9: if no sample of the transmit-buffer-empty flag is set before
the iteration count passes UART_TX_TOUT, rs232::putchar writes nothing to
the UART data register (and, returning void, reports nothing); if a sample
within the bound is set, the byte is written exactly once. -/
theorem C9_putchar_timeout (flag : Nat → Bool) (chout : Nat) :
    ((∀ i, i ≤ UART_TX_TOUT + 1 → flag i = false) →
      rs232_putchar flag chout = []) ∧
    ((∃ i, i ≤ UART_TX_TOUT + 1 ∧ flag i) →
      rs232_putchar flag chout = [chout]) := by
  constructor
  · intro hnone
    exact putcharFrom_none flag chout (UART_TX_TOUT + 2) 0 (by omega)
      (fun i _ h2 => hnone i h2)
  · rintro ⟨i, h1, h2⟩
    exact putcharFrom_one flag chout (UART_TX_TOUT + 2) 0 (by omega)
      ⟨i, Nat.zero_le _, h1, h2⟩

/-- Witness for claim C9: with the flag never set the byte is dropped, and
with the flag set at sample 0 the byte 65 is written exactly once. -/
theorem C9_putchar_timeout_witness :
    rs232_putchar (fun _ => false) 65 = [] ∧
    rs232_putchar (fun _ => true) 65 = [65] := by
  refine ⟨(C9_putchar_timeout (fun _ => false) 65).1 (fun i _ => rfl),
          (C9_putchar_timeout (fun _ => true) 65).2 ⟨0, by omega, rfl⟩⟩

/-! ## Serial receive ring buffer (rs232int.cpp, rs232int.h)

The receive ISR is the sole writer into a circular buffer of RSINT_BUF_SIZE
bytes with a read index and a write index; rs232::getchar is the sole
consumer.  The ISR stores the received byte at the write index, advances the
write index modulo the buffer size, and, if the write index then equals the
read index, advances the read index as well, dropping the oldest unread
byte.  Since the indices are equal exactly when the buffer is empty, at most
RSINT_BUF_SIZE - 1 unread bytes can be held: that is the capacity of the buffer.
The byte array is modelled as a function from indices to bytes. -/

/-- Receive buffer size from rs232int.h. -/
def RSINT_BUF_SIZE : Nat := 32

/-- State of the receive buffer of one port: byte array, read index, write
index. -/
structure RcvBuf where
  buf : Nat → Nat
  read_index : Nat
  write_index : Nat

/-- The buffer right after construction: indices reset to zero. -/
def rcvEmpty : RcvBuf :=
  { buf := fun _ => 0, read_index := 0, write_index := 0 }

/-- Store v at index j of the byte array. -/
def bufWrite (f : Nat → Nat) (j v : Nat) : Nat → Nat :=
  fun i => if i = j then v else f i

/-- Embedding of the receive ISR: store the incoming byte at the write
index, advance the write index with wraparound, and if it caught up with the
read index, advance the read index too (drop-oldest). -/
def isrRecv (s : RcvBuf) (ch : Nat) : RcvBuf :=
  let buf2 := bufWrite s.buf s.write_index ch
  let w2 := if RSINT_BUF_SIZE ≤ s.write_index + 1 then 0 else s.write_index + 1
  if w2 = s.read_index then
    { buf := buf2, write_index := w2,
      read_index := if RSINT_BUF_SIZE ≤ s.read_index + 1 then 0
        else s.read_index + 1 }
  else
    { buf := buf2, write_index := w2, read_index := s.read_index }

/-- Feed a sequence of bytes through the ISR with no intervening read. -/
def feed (s : RcvBuf) (bs : List Nat) : RcvBuf :=
  bs.foldl isrRecv s

/-- Embedding of rs232::getchar restricted to one call: when the indices are
equal the code busy-waits (modelled as none); otherwise it returns the byte
at the read index and advances the read index with wraparound. -/
def rs232_getchar (s : RcvBuf) : Option (Nat × RcvBuf) :=
  if s.read_index = s.write_index then none
  else
    some (s.buf s.read_index,
      { s with read_index := if RSINT_BUF_SIZE ≤ s.read_index + 1 then 0
          else s.read_index + 1 })

/-- Repeatedly call rs232_getchar, collecting the retrieved bytes until the
buffer reports empty or the fuel runs out. -/
def drain (s : RcvBuf) : Nat → List Nat
  | 0 => []
  | fuel + 1 =>
    match rs232_getchar s with
    | none => []
    | some (c, s2) => c :: drain s2 fuel

/-- Abstraction relation: after k ISR deposits in total, the buffer state s
holds exactly the unread bytes p (oldest first) in the ring positions
starting at the read index. -/
def Abstr (k : Nat) (p : List Nat) (s : RcvBuf) : Prop :=
  p.length ≤ 31 ∧ p.length ≤ k ∧
  s.write_index = k % 32 ∧
  s.read_index = (k - p.length) % 32 ∧
  ∀ i, i < p.length → s.buf ((k - p.length + i) % 32) = p.getD i 0

/-- The unread bytes after one more ISR deposit: append when there is room,
else drop the oldest and append. -/
def nextPending (p : List Nat) (ch : Nat) : List Nat :=
  if p.length = 31 then p.drop 1 ++ [ch] else p ++ [ch]

/-- The default-valued element of a dropped list, read back in the original
list. -/
theorem getD_drop {α : Type} (l : List α) :
    ∀ (m i : Nat) (d : α), (l.drop m).getD i d = l.getD (m + i) d := by
  induction l with
  | nil =>
    intro m i d
    simp
  | cons a l ih =>
    intro m i d
    cases m with
    | zero => simp
    | succ m =>
      rw [List.drop_succ_cons, ih m i d]
      have harg : m + 1 + i = (m + i) + 1 := by omega
      rw [harg, List.getD_cons_succ]

/-- One ISR deposit preserves the abstraction relation. -/
theorem Abstr.step {k : Nat} {p : List Nat} {s : RcvBuf}
    (h : Abstr k p s) (ch : Nat) :
    Abstr (k + 1) (nextPending p ch) (isrRecv s ch) := by
  obtain ⟨hle, hlek, hw, hr, hbuf⟩ := h
  have hw2 : (if RSINT_BUF_SIZE ≤ s.write_index + 1 then 0
      else s.write_index + 1) = (k + 1) % 32 := by
    rw [hw]
    simp only [RSINT_BUF_SIZE]
    split_ifs <;> omega
  by_cases hd : p.length = 31
  · -- the buffer is full: the write index catches the read index,
    -- the oldest byte is dropped
    have hk31 : 31 ≤ k := by omega
    have hnp : nextPending p ch = p.drop 1 ++ [ch] := by
      rw [nextPending, if_pos hd]
    have hlen2 : (nextPending p ch).length = 31 := by
      simp [hnp, List.length_drop, hd]
    have hcoll2 : (if RSINT_BUF_SIZE ≤ s.write_index + 1 then 0
        else s.write_index + 1) = s.read_index := by
      rw [hw2, hr, hd]
      omega
    rw [isrRecv, if_pos hcoll2]
    refine ⟨by omega, by omega, hw2, ?_, ?_⟩
    · show (if RSINT_BUF_SIZE ≤ s.read_index + 1 then 0
        else s.read_index + 1) = (k + 1 - (nextPending p ch).length) % 32
      rw [hlen2, hr, hd]
      simp only [RSINT_BUF_SIZE]
      split_ifs <;> omega
    · intro i hi
      rw [hlen2] at hi
      show bufWrite s.buf s.write_index ch
          ((k + 1 - (nextPending p ch).length + i) % 32) =
        (nextPending p ch).getD i 0
      rw [hlen2, hnp, hw]
      simp only [bufWrite]
      have hl : (p.drop 1).length = 30 := by
        simp [List.length_drop, hd]
      by_cases hi30 : i = 30
      · subst hi30
        rw [if_pos (by omega)]
        rw [List.getD_append_right _ _ _ _ (by omega), hl]
        simp
      · rw [if_neg (by omega)]
        have hidx : k + 1 - 31 + i = k - 31 + (1 + i) := by omega
        rw [hidx]
        have hold := hbuf (1 + i) (by omega)
        rw [hd] at hold
        rw [hold]
        rw [List.getD_append _ _ _ _ (by omega)]
        rw [getD_drop]
  · -- there is room: the read index stays put
    have hnp : nextPending p ch = p ++ [ch] := by
      rw [nextPending, if_neg hd]
    have hlen2 : (nextPending p ch).length = p.length + 1 := by
      simp [hnp]
    have hnocoll : (if RSINT_BUF_SIZE ≤ s.write_index + 1 then 0
        else s.write_index + 1) ≠ s.read_index := by
      rw [hw2, hr]
      omega
    rw [isrRecv, if_neg hnocoll]
    refine ⟨by omega, by omega, hw2, ?_, ?_⟩
    · show s.read_index = (k + 1 - (nextPending p ch).length) % 32
      rw [hlen2, hr]
      congr 1
      omega
    · intro i hi
      rw [hlen2] at hi
      show bufWrite s.buf s.write_index ch
          ((k + 1 - (nextPending p ch).length + i) % 32) =
        (nextPending p ch).getD i 0
      rw [hlen2, hnp, hw]
      simp only [bufWrite]
      by_cases hit : i = p.length
      · subst hit
        rw [if_pos (by omega)]
        rw [List.getD_append_right _ _ _ _ (Nat.le_refl _)]
        simp
      · rw [if_neg (by omega)]
        have hidx : k + 1 - (p.length + 1) + i = k - p.length + i := by
          omega
        rw [hidx, hbuf i (by omega),
          List.getD_append _ _ _ _ (by omega)]

/-- The last 31 bytes of a sequence, the most that the buffer can hold. -/
def lastN (bs : List Nat) : List Nat :=
  bs.drop (bs.length - 31)

/-- Feeding any byte sequence into the freshly constructed buffer leaves
exactly its last 31 bytes unread, oldest first. -/
theorem abstr_feed (bs : List Nat) :
    Abstr bs.length (lastN bs) (feed rcvEmpty bs) := by
  induction bs using List.reverseRecOn with
  | nil =>
    refine ⟨by simp [lastN], by simp [lastN], rfl, ?_, ?_⟩
    · simp [lastN, feed, rcvEmpty]
    · intro i hi
      simp [lastN] at hi
  | append_singleton bs c ih =>
    have hfeed : feed rcvEmpty (bs ++ [c]) = isrRecv (feed rcvEmpty bs) c := by
      simp [feed, List.foldl_append]
    have hpend : nextPending (lastN bs) c = lastN (bs ++ [c]) := by
      by_cases hlong : 31 ≤ bs.length
      · have hlen : (lastN bs).length = 31 := by
          simp [lastN, List.length_drop]
          omega
        rw [nextPending, if_pos hlen]
        simp only [lastN]
        rw [List.drop_drop]
        rw [List.drop_append_of_le_length (by simp)]
        have harg : bs.length - 31 + 1 = (bs ++ [c]).length - 31 := by
          simp
          omega
        rw [harg]
      · have hshort : bs.length - 31 = 0 := by omega
        have hbs : lastN bs = bs := by simp [lastN, hshort]
        rw [hbs, nextPending, if_neg (by omega)]
        simp only [lastN]
        have : (bs ++ [c]).length - 31 = 0 := by simp; omega
        rw [this]
        simp
    have hlen : (bs ++ [c]).length = bs.length + 1 := by simp
    rw [hfeed, ← hpend, hlen]
    exact ih.step c

/-- A buffer in relation with an empty pending list reports empty. -/
theorem abstr_getchar_nil {k : Nat} {s : RcvBuf} (h : Abstr k [] s) :
    rs232_getchar s = none := by
  obtain ⟨_, _, hw, hr, _⟩ := h
  rw [rs232_getchar, if_pos]
  rw [hw, hr]
  simp

/-- A buffer in relation with a nonempty pending list yields its oldest
pending byte and stays in relation with the remainder. -/
theorem abstr_getchar_cons {k : Nat} {a : Nat} {t : List Nat} {s : RcvBuf}
    (h : Abstr k (a :: t) s) :
    ∃ s2, rs232_getchar s = some (a, s2) ∧ Abstr k t s2 := by
  obtain ⟨hle, hlek, hw, hr, hbuf⟩ := h
  simp only [List.length_cons] at hle hlek hr hbuf
  have hne : s.read_index ≠ s.write_index := by
    rw [hw, hr]
    omega
  have hhead : s.buf s.read_index = a := by
    have := hbuf 0 (by omega)
    rw [hr]
    simpa using this
  refine ⟨_, by rw [rs232_getchar, if_neg hne, hhead], ?_⟩
  have hr2 : (if RSINT_BUF_SIZE ≤ s.read_index + 1 then 0
      else s.read_index + 1) = (k - t.length) % 32 := by
    rw [hr]
    simp only [RSINT_BUF_SIZE]
    split_ifs <;> omega
  refine ⟨by omega, by omega, hw, hr2, ?_⟩
  intro i hi
  have hidx : k - t.length + i = k - (t.length + 1) + (i + 1) := by omega
  have := hbuf (i + 1) (by omega)
  simp only [List.getD_cons_succ] at this
  rw [hidx]
  exact this

/-- Draining a buffer in relation with pending list p, with fuel at least
its length, retrieves exactly p. -/
theorem abstr_drain (p : List Nat) :
    ∀ k s fuel, Abstr k p s → p.length ≤ fuel → drain s fuel = p := by
  induction p with
  | nil =>
    intro k s fuel h _
    cases fuel with
    | zero => rfl
    | succ fuel => simp [drain, abstr_getchar_nil h]
  | cons a t ih =>
    intro k s fuel h hf
    obtain ⟨fuel, rfl⟩ : ∃ f, fuel = f + 1 :=
      ⟨fuel - 1, by simp at hf; omega⟩
    obtain ⟨s2, hg, h2⟩ := abstr_getchar_cons h
    simp only [drain, hg]
    rw [ih k s2 fuel h2 (by simp at hf; omega)]

/-- Claim C4: drop-oldest policy.  Feeding at most 31 bytes (the
capacity: the ring keeps one slot open, so RSINT_BUF_SIZE - 1 = 31 unread
bytes is the most it ever holds) into a fresh buffer loses nothing; feeding
one byte more than the capacity leaves exactly the last 31 bytes
retrievable, in order, so only the very first byte is lost. -/
theorem C4_drop_oldest :
    (∀ bs : List Nat, bs.length ≤ RSINT_BUF_SIZE - 1 →
      drain (feed rcvEmpty bs) RSINT_BUF_SIZE = bs) ∧
    (∀ bs : List Nat, bs.length = RSINT_BUF_SIZE - 1 + 1 →
      drain (feed rcvEmpty bs) RSINT_BUF_SIZE = bs.drop 1) := by
  constructor
  · intro bs hlen
    simp only [RSINT_BUF_SIZE] at hlen ⊢
    have hfeed := abstr_feed bs
    have hlast : lastN bs = bs := by
      simp [lastN, Nat.sub_eq_zero_of_le (by omega : bs.length ≤ 31)]
    rw [hlast] at hfeed
    exact abstr_drain bs bs.length _ 32 hfeed (by omega)
  · intro bs hlen
    simp only [RSINT_BUF_SIZE] at hlen ⊢
    have hfeed := abstr_feed bs
    have hlast : lastN bs = bs.drop 1 := by
      simp [lastN, hlen]
    rw [hlast] at hfeed
    exact abstr_drain (bs.drop 1) bs.length _ 32 hfeed
      (by simp [List.length_drop]; omega)

/-- Witness for claim C4: the 32 bytes 100..131 fed into a fresh buffer
leave 101..131 retrievable, and three bytes fed into a fresh buffer are all
retrievable. -/
theorem C4_drop_oldest_witness :
    drain (feed rcvEmpty ((List.range 32).map (fun i => 100 + i)))
        RSINT_BUF_SIZE =
      ((List.range 32).map (fun i => 100 + i)).drop 1 ∧
    drain (feed rcvEmpty [5, 6, 7]) RSINT_BUF_SIZE = [5, 6, 7] := by
  refine ⟨C4_drop_oldest.2 _ (by simp [RSINT_BUF_SIZE]),
          C4_drop_oldest.1 _ (by simp [RSINT_BUF_SIZE])⟩

end ME507
